import Mathlib

/-!
Verification of the kiosk signage application (src/src/App.jsx).

The definitions below are a shallow embedding of the app's pure core:
the media classifier `isVideo`, the playlist reconciler inside
`fetchContent`, the version gate `checkVersion`, the slide-advance
function `nextSlide`, the slider safety effect, and the session state
with its operations (toggle sound, fullscreen change, upload, delete).
Asynchronous outcomes (remote listing, version fetch) are passed in as
explicit values; timers are modelled by the registrations the polling
effect makes.
-/

namespace Kiosk

/-- Compiled-in build identifier (`const APP_VERSION = "1.1"`). -/
def APP_VERSION : String := "1.1"

/-! ## Media classifier

`const isVideo = (url) => url.match(/\.(mp4|webm|ogg|mov)/i)` — an
unanchored, case-insensitive regex search over the whole string. -/

/-- `lcMatches pat cs` : the characters of `cs` begin with `pat` up to
ASCII lower-casing (the regex's `/i` flag applied to a literal pattern). -/
def lcMatches : List Char → List Char → Bool
  | [], _ => true
  | _ :: _, [] => false
  | p :: ps, c :: cs => (c.toLower == p) && lcMatches ps cs

/-- The alternation `(mp4|webm|ogg|mov)` tried at the head of `cs`. -/
def extMatch (cs : List Char) : Bool :=
  lcMatches "mp4".data cs || lcMatches "webm".data cs ||
    lcMatches "ogg".data cs || lcMatches "mov".data cs

/-- Regex search for `\.(mp4|webm|ogg|mov)` at every position of the string,
as `String.prototype.match` performs it (no anchors in the pattern). -/
def searchVideo : List Char → Bool
  | [] => false
  | c :: cs => (c == '.' && extMatch cs) || searchVideo cs

/-- `isVideo` from App.jsx line 32: truthiness of `url.match(/\.(mp4|webm|ogg|mov)/i)`. -/
def isVideo (url : String) : Bool :=
  searchVideo url.data

/-- Spec-side classifier, for comparison with `isVideo` only.
Modelled from the spec's words: `kind` is derived solely from the
filename/URL suffix matching `{mp4, webm, ogg, mov}` case-insensitively;
anything else is an image. -/
def isVideoSuffixSpec (url : String) : Bool :=
  let l := url.data.map Char.toLower
  ('.' :: "mp4".data).isSuffixOf l || ('.' :: "webm".data).isSuffixOf l ||
    ('.' :: "ogg".data).isSuffixOf l || ('.' :: "mov".data).isSuffixOf l

/-! ## Playlist items and the reconciler -/

/-- One playlist entry as built in `fetchContent`:
`{ url, fullPath: item.fullPath, name: item.name }`. -/
structure MediaItem where
  url : String
  fullPath : String
  displayName : String
deriving DecidableEq, Repr

/-- `prevItems.some((item, index) => item.url !== newItems[index].url)`,
evaluated only when both lists have the same length. -/
def urlsDiffer (prevItems newItems : List MediaItem) : Bool :=
  (prevItems.zip newItems).any fun p => p.1.url != p.2.url

/-- The `setMediaItems` updater of `fetchContent` (App.jsx lines 78–82):
adopt the new listing on a length change or any positional URL change,
otherwise keep the previously held list. -/
def reconcile (prevItems newItems : List MediaItem) : List MediaItem :=
  if prevItems.length != newItems.length then newItems
  else if urlsDiffer prevItems newItems then newItems
  else prevItems

/-! ## Version gate -/

/-- Outcome of the version fetch in `checkVersion`. `fetchError` stands for
any exception raised inside the `try` block (network failure, undecodable
bytes, `JSON.parse` failure, or a property access on a non-object);
`parsed v` stands for a successfully parsed JSON value whose `version`
property is the string `v` when `v = some s`, and is absent or not a
string when `v = none` (JS yields `undefined` or a non-string there). -/
inductive VersionFetchOutcome where
  | fetchError
  | parsed (version : Option String)
deriving DecidableEq, Repr

/-- `checkVersion` (App.jsx lines 99–113): returns whether
`window.location.reload(true)` is invoked. The reload fires exactly when
the strict comparison `remoteData.version !== APP_VERSION` is true; any
exception is swallowed by the empty `catch`. -/
def checkVersion : VersionFetchOutcome → Bool
  | .fetchError => false
  | .parsed v => v != some APP_VERSION

/-- Spec-side version gate, for comparison with `checkVersion` only.
Modelled from the spec's words: a malformed version descriptor (no
well-formed `version` string) is treated identically to a fetch failure
and ignored; a reload happens only when a well-formed version differs. -/
def checkVersionSpec : VersionFetchOutcome → Bool
  | .fetchError => false
  | .parsed none => false
  | .parsed (some v) => v != APP_VERSION

/-! ## Session state and the playback machine -/

/-- A `<video>` element's mutable fields that the app touches through
`videoRefs`. -/
structure VideoEl where
  muted : Bool
  currentTime : Nat
deriving DecidableEq, Repr

/-- The component state: one field per `useState` hook, plus the
`videoRefs` array of rendered `<video>` elements (`none` where the slot
holds no element). -/
structure KioskState where
  mediaItems : List MediaItem
  currentIndex : Int
  loading : Bool
  notification : Option String
  isMuted : Bool
  isFullscreen : Bool
  isUiVisible : Bool
  videoRefs : List (Option VideoEl)
deriving DecidableEq, Repr

/-- The `useState` initial values. -/
def initialState : KioskState where
  mediaItems := []
  currentIndex := 0
  loading := false
  notification := none
  isMuted := true
  isFullscreen := false
  isUiVisible := true
  videoRefs := []

/-- `videoRefs.current[i]`: JS array indexing yields `undefined` outside
the array's range (negative included). -/
def refAt (refs : List (Option VideoEl)) (i : Int) : Option VideoEl :=
  if i < 0 then none else refs.getD i.toNat none

/-- `nextSlide`'s updater (App.jsx lines 124–128):
`prev >= mediaItems.length - 1 ? 0 : prev + 1`. -/
def nextSlide (len : Nat) (i : Int) : Int :=
  if (len : Int) - 1 ≤ i then 0 else i + 1

/-- `nextSlide` applied to the component state. -/
def nextSlideState (s : KioskState) : KioskState :=
  { s with currentIndex := nextSlide s.mediaItems.length s.currentIndex }

/-- The slider effect (App.jsx lines 131–157): with an empty playlist it
does nothing; an out-of-range index is reset to 0; otherwise, when the
current item is a video whose element is mounted, the element is rewound
and given the session's mute flag (the image branch only arms the dwell
timer, which changes no state). -/
def sliderEffect (s : KioskState) : KioskState :=
  if s.mediaItems.length = 0 then s
  else if (s.mediaItems.length : Int) ≤ s.currentIndex then
    { s with currentIndex := 0 }
  else
    match s.mediaItems.get? s.currentIndex.toNat with
    | none => s
    | some item =>
      if isVideo item.url then
        match refAt s.videoRefs s.currentIndex with
        | none => s
        | some v =>
          let v' : VideoEl := { v with muted := s.isMuted, currentTime := 0 }
          { s with videoRefs := s.videoRefs.set s.currentIndex.toNat (some v') }
      else s

/-- A playback advance (image dwell timeout or the video `ended` event):
`nextSlide` runs, then the slider effect re-runs on the new index. -/
def advanceStep (s : KioskState) : KioskState :=
  sliderEffect (nextSlideState s)

/-- Outcome of one remote listing pass: `failure` when `listAll` or any
`getDownloadURL` rejects, `success items` when every item resolved. -/
inductive ListingOutcome where
  | failure
  | success (items : List MediaItem)
deriving DecidableEq, Repr

/-- A successful listing applied to the state: the reconciler decides the
held list, `finally` clears the loading flag, and the slider effect
re-runs. -/
def applyListing (s : KioskState) (items : List MediaItem) : KioskState :=
  sliderEffect { s with mediaItems := reconcile s.mediaItems items, loading := false }

/-- One complete `fetchContent` pass (App.jsx lines 56–89) given the
listing's outcome: on failure the `catch` only logs and `finally` clears
the loading flag; on success the reconciler runs. -/
def fetchContentStep (s : KioskState) : ListingOutcome → KioskState
  | .failure => { s with loading := false }
  | .success items => applyListing s items

/-- The `fullscreenchange` subscription's handler:
`setIsFullscreen(!!document.fullscreenElement)`. -/
def handleFsChange (s : KioskState) (fsElement : Bool) : KioskState :=
  { s with isFullscreen := fsElement }

/-- `toggleSound` (App.jsx lines 166–170): flip the session flag and, when
a video element is mounted at the current index, write the flipped value
to its `muted` property (both writes read the pre-toggle `isMuted`). -/
def toggleSound (s : KioskState) : KioskState :=
  match refAt s.videoRefs s.currentIndex with
  | none => { s with isMuted := !s.isMuted }
  | some v =>
    let v' : VideoEl := { v with muted := !s.isMuted }
    { s with
      isMuted := !s.isMuted,
      videoRefs := s.videoRefs.set s.currentIndex.toNat (some v') }

/-- Outcome of a mutation call (`uploadBytes` / `deleteObject`): on success
the immediately triggered `fetchContent(true)` pass completes with the
given listing outcome. -/
inductive MutationOutcome where
  | failure
  | success (listing : ListingOutcome)
deriving DecidableEq, Repr

/-- `handleUpload` after a file was picked: toast, upload, then on success
toast again and run a background refresh; on error only toast. -/
def handleUpload (s : KioskState) : MutationOutcome → KioskState
  | .failure => { s with notification := some "Error uploading." }
  | .success lo => fetchContentStep { s with notification := some "Success!" } lo

/-- `handleDelete`: a declined confirm dialog is a no-op; otherwise delete,
toast, and on success run a background refresh. -/
def handleDelete (s : KioskState) (confirmed : Bool) (o : MutationOutcome) : KioskState :=
  if !confirmed then s
  else
    match o with
    | .failure => { s with notification := some "Error deleting." }
    | .success lo => fetchContentStep { s with notification := some "Deleted!" } lo

/-! ## Poll scheduler -/

/-- The two calls the auto-refresh effect's interval callback makes. -/
inductive PollAction where
  | contentRefresh
  | versionCheck
deriving DecidableEq, Repr

/-- One `setInterval` registration: its fixed period in milliseconds and
the calls its callback makes on each tick. -/
structure PollTimer where
  period : Nat
  actions : List PollAction
deriving DecidableEq, Repr

/-- The interval registrations made by the auto-refresh effect
(App.jsx lines 96–121): nothing while `kioskId` is unresolved; once it is
known, a single `setInterval(() => { fetchContent(true); checkVersion(); },
120000)`. -/
def autoRefreshTimers (kioskId : Option String) : List PollTimer :=
  match kioskId with
  | none => []
  | some _ => [{ period := 120000, actions := [.contentRefresh, .versionCheck] }]

/-- The effect's cleanup (`clearInterval`): no registration survives it. -/
def autoRefreshTeardown : List PollTimer := []

/-! ## Sample data for concrete witnesses -/

/-- A sample image item. -/
def itemA : MediaItem :=
  { url := "a.jpg", fullPath := "images/common/a.jpg", displayName := "a.jpg" }

/-- A second sample image item. -/
def itemB : MediaItem :=
  { url := "b.jpg", fullPath := "images/common/b.jpg", displayName := "b.jpg" }

/-- A sample video item. -/
def itemC : MediaItem :=
  { url := "c.mp4", fullPath := "images/common/c.mp4", displayName := "c.mp4" }

/-- A session showing the last item of a three-item playlist, with a video
element mounted at the current slot. -/
def sampleState : KioskState :=
  { initialState with
    mediaItems := [itemA, itemB, itemC]
    currentIndex := 2
    videoRefs := [none, none, some { muted := true, currentTime := 7 }] }

/-! ## Reconciler lemmas -/

/-- With equally long lists, the `some` scan over URLs returns `false`
exactly when the two lists agree on every position's URL. -/
theorem urlsDiffer_false_iff (prevItems newItems : List MediaItem)
    (h : prevItems.length = newItems.length) :
    urlsDiffer prevItems newItems = false ↔
      prevItems.map MediaItem.url = newItems.map MediaItem.url := by
  induction prevItems generalizing newItems with
  | nil =>
    cases newItems with
    | nil => simp [urlsDiffer]
    | cons b bs => simp at h
  | cons a as ih =>
    cases newItems with
    | nil => simp at h
    | cons b bs =>
      have h' : as.length = bs.length := by simpa using h
      simp only [urlsDiffer, List.zip_cons_cons, List.any_cons, Bool.or_eq_false_iff,
        bne_eq_false_iff_eq, List.map_cons, List.cons.injEq]
      exact and_congr Iff.rfl (ih bs h')

/-- C1: if the lengths differ the reconciler adopts the new list; with equal
lengths it adopts the new list when some position differs on resolved URL,
and otherwise returns the previously held list itself, so a positionally
identical listing leaves the held playlist unchanged. -/
theorem reconcile_spec (prevItems newItems : List MediaItem) :
    (prevItems.length ≠ newItems.length → reconcile prevItems newItems = newItems) ∧
    (prevItems.length = newItems.length →
      prevItems.map MediaItem.url ≠ newItems.map MediaItem.url →
      reconcile prevItems newItems = newItems) ∧
    (prevItems.map MediaItem.url = newItems.map MediaItem.url →
      reconcile prevItems newItems = prevItems) := by
  refine ⟨fun h => ?_, fun h hmap => ?_, fun hmap => ?_⟩
  · simp [reconcile, h]
  · have hd : urlsDiffer prevItems newItems = true := by
      rcases Bool.eq_false_or_eq_true (urlsDiffer prevItems newItems) with ht | hf
      · exact ht
      · exact absurd ((urlsDiffer_false_iff _ _ h).mp hf) hmap
    simp [reconcile, h, hd]
  · have h : prevItems.length = newItems.length := by
      simpa using congrArg List.length hmap
    have hd : urlsDiffer prevItems newItems = false :=
      (urlsDiffer_false_iff _ _ h).mpr hmap
    simp [reconcile, h, hd]

/-- C9: the reconciler's result is always one of its two input lists, and
whenever it returns the previously held list, that list agrees with the new
listing on every position's URL. -/
theorem reconcile_no_merge (prevItems newItems : List MediaItem) :
    (reconcile prevItems newItems = prevItems ∨
      reconcile prevItems newItems = newItems) ∧
    (reconcile prevItems newItems = prevItems →
      prevItems.map MediaItem.url = newItems.map MediaItem.url) := by
  constructor
  · unfold reconcile
    split
    · exact Or.inr rfl
    · split
      · exact Or.inr rfl
      · exact Or.inl rfl
  · intro hret
    unfold reconcile at hret
    split at hret
    · rw [hret]
    · split at hret
      · rw [hret]
      · rename_i hlen _
        have h : prevItems.length = newItems.length := by
          simpa using hlen
        rename_i hdiff
        have hd : urlsDiffer prevItems newItems = false := by
          simpa using hdiff
        exact (urlsDiffer_false_iff _ _ h).mp hd

/-! ## Classifier lemmas -/

/-- A case-insensitive literal pattern matches at the head of `cs` exactly
when `cs` starts with characters lower-casing to the pattern. -/
theorem lcMatches_iff (pat : List Char) : ∀ cs : List Char,
    lcMatches pat cs = true ↔
      ∃ e rest, cs = e ++ rest ∧ e.map Char.toLower = pat := by
  induction pat with
  | nil =>
    intro cs
    simp only [lcMatches, true_iff]
    exact ⟨[], cs, rfl, rfl⟩
  | cons p ps ih =>
    intro cs
    cases cs with
    | nil =>
      simp only [lcMatches]
      constructor
      · intro h
        exact absurd h (by decide)
      · rintro ⟨e, rest, heq, hmap⟩
        rcases List.append_eq_nil.mp heq.symm with ⟨rfl, -⟩
        simp at hmap
    | cons c cs' =>
      simp only [lcMatches, Bool.and_eq_true, beq_iff_eq, ih cs']
      constructor
      · rintro ⟨hc, e, rest, rfl, hmap⟩
        exact ⟨c :: e, rest, rfl, by simp [hmap, hc]⟩
      · rintro ⟨e, rest, heq, hmap⟩
        cases e with
        | nil => simp at hmap
        | cons a e' =>
          rw [List.cons_append, List.cons.injEq] at heq
          rcases heq with ⟨rfl, rfl⟩
          rw [List.map_cons, List.cons.injEq] at hmap
          exact ⟨hmap.1, e', rest, rfl, hmap.2⟩

/-- The alternation `(mp4|webm|ogg|mov)` matches at the head of `cs` exactly
when `cs` starts with characters lower-casing to one of the four
extensions. -/
theorem extMatch_iff (cs : List Char) :
    extMatch cs = true ↔
      ∃ e rest, cs = e ++ rest ∧
        (e.map Char.toLower = "mp4".data ∨ e.map Char.toLower = "webm".data ∨
          e.map Char.toLower = "ogg".data ∨ e.map Char.toLower = "mov".data) := by
  simp only [extMatch, Bool.or_eq_true, lcMatches_iff]
  constructor
  · rintro (((⟨e, r, rfl, h⟩ | ⟨e, r, rfl, h⟩) | ⟨e, r, rfl, h⟩) | ⟨e, r, rfl, h⟩)
    · exact ⟨e, r, rfl, Or.inl h⟩
    · exact ⟨e, r, rfl, Or.inr (Or.inl h)⟩
    · exact ⟨e, r, rfl, Or.inr (Or.inr (Or.inl h))⟩
    · exact ⟨e, r, rfl, Or.inr (Or.inr (Or.inr h))⟩
  · rintro ⟨e, r, rfl, (h | h | h | h)⟩
    · exact Or.inl (Or.inl (Or.inl ⟨e, r, rfl, h⟩))
    · exact Or.inl (Or.inl (Or.inr ⟨e, r, rfl, h⟩))
    · exact Or.inl (Or.inr ⟨e, r, rfl, h⟩)
    · exact Or.inr ⟨e, r, rfl, h⟩

/-- The unanchored scan succeeds exactly when a dot followed by a matching
alternation occurs somewhere in the character list. -/
theorem searchVideo_iff (cs : List Char) :
    searchVideo cs = true ↔
      ∃ a rest, cs = a ++ '.' :: rest ∧ extMatch rest = true := by
  induction cs with
  | nil =>
    simp only [searchVideo]
    constructor
    · intro h
      exact absurd h (by decide)
    · rintro ⟨a, rest, heq, -⟩
      exact absurd heq.symm (by simp)
  | cons c cs' ih =>
    simp only [searchVideo, Bool.or_eq_true, Bool.and_eq_true, beq_iff_eq, ih]
    constructor
    · rintro (⟨rfl, hm⟩ | ⟨a, rest, rfl, hm⟩)
      · exact ⟨[], cs', rfl, hm⟩
      · exact ⟨c :: a, rest, rfl, hm⟩
    · rintro ⟨a, rest, heq, hm⟩
      cases a with
      | nil =>
        rw [List.nil_append, List.cons.injEq] at heq
        exact Or.inl ⟨heq.1, heq.2 ▸ hm⟩
      | cons b a' =>
        rw [List.cons_append, List.cons.injEq] at heq
        exact Or.inr ⟨a', rest, heq.2, hm⟩

/-- C3 counterexample: on `"clip.mp4.png"` the trailing suffix is `png`, so
a suffix-only classifier returns Image, but `isVideo`'s unanchored regex
finds the embedded `.mp4` and classifies it as Video. -/
theorem isVideo_suffix_counterexample :
    isVideo "clip.mp4.png" = true ∧ isVideoSuffixSpec "clip.mp4.png" = false :=
  ⟨by decide, by decide⟩

/-- C3 (amended): the classifier is a pure total function returning Video
exactly when a dot immediately followed by mp4, webm, ogg or mov
(case-insensitively) occurs anywhere in the string — not only as a trailing
suffix; in particular "clip.MP4" and "clip.mov" classify as Video while
"photo.jpg" and "doc.pdf" classify as Image. -/
theorem isVideo_characterization :
    (∀ s : String, isVideo s = true ↔
      ∃ a e b : List Char, s.data = a ++ '.' :: (e ++ b) ∧
        (e.map Char.toLower = "mp4".data ∨ e.map Char.toLower = "webm".data ∨
          e.map Char.toLower = "ogg".data ∨ e.map Char.toLower = "mov".data)) ∧
    isVideo "clip.MP4" = true ∧ isVideo "clip.mov" = true ∧
    isVideo "photo.jpg" = false ∧ isVideo "doc.pdf" = false := by
  refine ⟨fun s => ?_, by decide, by decide, by decide, by decide⟩
  rw [isVideo, searchVideo_iff]
  constructor
  · rintro ⟨a, rest, hdata, hm⟩
    rcases (extMatch_iff rest).mp hm with ⟨e, b, rfl, h⟩
    exact ⟨a, e, b, hdata, h⟩
  · rintro ⟨a, e, b, hdata, h⟩
    exact ⟨a, e ++ b, hdata, (extMatch_iff _).mpr ⟨e, b, rfl, h⟩⟩

/-- C10: the classifier matches its extension pattern anywhere in the input,
not only as a trailing suffix: a dot immediately followed by mp4, webm, ogg
or mov (case-insensitively) at any position classifies the string as
Video. -/
theorem isVideo_matches_anywhere (a e b : List Char)
    (h : e.map Char.toLower = "mp4".data ∨ e.map Char.toLower = "webm".data ∨
      e.map Char.toLower = "ogg".data ∨ e.map Char.toLower = "mov".data) :
    isVideo (String.mk (a ++ '.' :: (e ++ b))) = true := by
  rw [isVideo]
  exact (searchVideo_iff _).mpr ⟨a, e ++ b, rfl, (extMatch_iff _).mpr ⟨e, b, rfl, h⟩⟩

/-- C10 witness: `"clip" ++ "." ++ "MP4" ++ ".png"` — an upper-case
extension embedded mid-string — classifies as Video. -/
theorem isVideo_matches_anywhere_witness :
    isVideo (String.mk ("clip".data ++ '.' :: ("MP4".data ++ ".png".data))) = true :=
  isVideo_matches_anywhere "clip".data "MP4".data ".png".data (Or.inl (by decide))

/-! ## Version gate theorems -/

/-- C4 counterexample: a descriptor that fetches and parses fine but lacks a
`version` string — the empty object, a malformed VersionDescriptor — makes
`remoteData.version !== APP_VERSION` true and so triggers a reload, while
the claim requires it to be ignored like a fetch failure. -/
theorem checkVersion_malformed_counterexample :
    checkVersion (.parsed none) = true ∧ checkVersionSpec (.parsed none) = false :=
  ⟨rfl, rfl⟩

/-- C4 (amended): a reload is triggered exactly when the remote descriptor
is fetched and parsed successfully and its `version` property — absent or
non-string values included — differs under strict inequality from the
compiled-in build constant; an exception anywhere in the fetch/decode/parse
path is silently ignored, and no reload occurs while the versions match. -/
theorem checkVersion_amended (o : VersionFetchOutcome) :
    (checkVersion o = true ↔ ∃ v, o = .parsed v ∧ v ≠ some APP_VERSION) ∧
    checkVersion (.parsed (some APP_VERSION)) = false := by
  refine ⟨?_, by simp [checkVersion]⟩
  cases o with
  | fetchError => simp [checkVersion]
  | parsed v => simp [checkVersion]

/-! ## State-machine lemmas -/

theorem sliderEffect_mediaItems (s : KioskState) :
    (sliderEffect s).mediaItems = s.mediaItems := by
  unfold sliderEffect
  repeat' split
  all_goals rfl

theorem sliderEffect_isMuted (s : KioskState) :
    (sliderEffect s).isMuted = s.isMuted := by
  unfold sliderEffect
  repeat' split
  all_goals rfl

theorem sliderEffect_currentIndex (s : KioskState) (h : s.mediaItems.length ≠ 0) :
    (sliderEffect s).currentIndex =
      if (s.mediaItems.length : Int) ≤ s.currentIndex then 0 else s.currentIndex := by
  unfold sliderEffect
  rw [if_neg h]
  split
  · rfl
  · repeat' split
    all_goals rfl

theorem nextSlide_nonneg (len : Nat) (i : Int) (h : 0 ≤ i) :
    0 ≤ nextSlide len i := by
  unfold nextSlide
  split <;> omega

theorem nextSlide_lt (len : Nat) (i : Int) (hN : 0 < len) :
    nextSlide len i < (len : Int) := by
  unfold nextSlide
  split <;> omega

/-- The branchy updater agrees with wrap-around arithmetic on in-range
indices. -/
theorem nextSlide_eq_mod (len : Nat) (i : Int) (h0 : 0 ≤ i) (h1 : i < (len : Int)) :
    nextSlide len i = (i + 1) % (len : Int) := by
  unfold nextSlide
  split
  · rename_i hc
    have hi : i + 1 = (len : Int) := by omega
    rw [hi, Int.emod_self]
  · rename_i hc
    exact (Int.emod_eq_of_lt (by omega) (by omega)).symm

theorem getD_set_self {α : Type} (l : List α) (n : Nat) (x d : α)
    (h : n < l.length) : (l.set n x).getD n d = x := by
  rw [List.getD_eq_getElem?_getD, List.getElem?_set_eq_of_lt x h, Option.getD_some]

theorem refAt_bounds (refs : List (Option VideoEl)) (i : Int) (v : VideoEl)
    (h : refAt refs i = some v) : ¬ i < 0 ∧ i.toNat < refs.length := by
  unfold refAt at h
  by_cases hi : i < 0
  · rw [if_pos hi] at h
    cases h
  · rw [if_neg hi] at h
    refine ⟨hi, ?_⟩
    by_contra hh
    rw [List.getD_eq_default _ _ (Nat.le_of_not_lt hh)] at h
    cases h

theorem refAt_set (refs : List (Option VideoEl)) (i : Int) (x : Option VideoEl)
    (hneg : ¬ i < 0) (hlt : i.toNat < refs.length) :
    refAt (refs.set i.toNat x) i = x := by
  unfold refAt
  rw [if_neg hneg, getD_set_self _ _ _ _ (by simpa using hlt)]

theorem fetchContentStep_isMuted (s : KioskState) (o : ListingOutcome) :
    (fetchContentStep s o).isMuted = s.isMuted := by
  cases o with
  | failure => rfl
  | success items => exact (sliderEffect_isMuted _).trans rfl

/-- After the slider effect, a non-negative index over a non-empty playlist
is strictly inside the playlist. -/
theorem sliderEffect_bounds (s : KioskState) (hnn : 0 ≤ s.currentIndex)
    (hN : 0 < s.mediaItems.length) :
    0 ≤ (sliderEffect s).currentIndex ∧
      (sliderEffect s).currentIndex < ((sliderEffect s).mediaItems.length : Int) := by
  have hne : s.mediaItems.length ≠ 0 := Nat.pos_iff_ne_zero.mp hN
  rw [sliderEffect_mediaItems, sliderEffect_currentIndex s hne]
  split
  · constructor <;> omega
  · rename_i hc
    constructor <;> omega

/-! ## Playback and reconciliation theorems -/

/-- C2: starting from a non-negative index, a playback advance over a
non-empty playlist keeps `currentIndex` inside the playlist, a
reconciliation that leaves the playlist non-empty keeps `currentIndex`
inside it, and a reconciliation that shrinks the playlist below the prior
index resets the index to 0. -/
theorem currentIndex_invariant (s : KioskState) (newItems : List MediaItem)
    (hnn : 0 ≤ s.currentIndex) :
    (0 < s.mediaItems.length → s.currentIndex < (s.mediaItems.length : Int) →
      0 ≤ (advanceStep s).currentIndex ∧
        (advanceStep s).currentIndex < ((advanceStep s).mediaItems.length : Int)) ∧
    (0 < (applyListing s newItems).mediaItems.length →
      0 ≤ (applyListing s newItems).currentIndex ∧
        (applyListing s newItems).currentIndex <
          ((applyListing s newItems).mediaItems.length : Int)) ∧
    (0 < (applyListing s newItems).mediaItems.length →
      ((applyListing s newItems).mediaItems.length : Int) ≤ s.currentIndex →
      (applyListing s newItems).currentIndex = 0) := by
  have hmed : (applyListing s newItems).mediaItems = reconcile s.mediaItems newItems :=
    (sliderEffect_mediaItems _).trans rfl
  refine ⟨fun hN _ => ?_, fun hL => ?_, fun hL hle => ?_⟩
  · exact sliderEffect_bounds (nextSlideState s) (nextSlide_nonneg _ _ hnn) hN
  · rw [hmed] at hL
    exact sliderEffect_bounds _ hnn hL
  · rw [hmed] at hL hle
    have hne : (reconcile s.mediaItems newItems).length ≠ 0 := Nat.pos_iff_ne_zero.mp hL
    show (sliderEffect
      { s with mediaItems := reconcile s.mediaItems newItems, loading := false }).currentIndex = 0
    rw [sliderEffect_currentIndex _ hne]
    exact if_pos hle

/-- C2 witness: a listing shrink from three items to one, with the prior
index 2 now out of range, resets the index to 0. -/
theorem currentIndex_invariant_witness :
    (applyListing sampleState [itemA]).currentIndex = 0 :=
  (currentIndex_invariant sampleState [itemA] (by decide)).2.2 (by decide) (by decide)

/-- C5: a playback advance (image dwell timeout or video `ended` event) over
a playlist of length N > 0 from an in-range index i moves the index to
(i + 1) mod N; in particular it wraps past the last item back to 0. -/
theorem advance_wraps (s : KioskState) (h0 : 0 ≤ s.currentIndex)
    (h1 : s.currentIndex < (s.mediaItems.length : Int)) (hN : 0 < s.mediaItems.length) :
    (advanceStep s).currentIndex = (s.currentIndex + 1) % (s.mediaItems.length : Int) := by
  have hne : s.mediaItems.length ≠ 0 := Nat.pos_iff_ne_zero.mp hN
  have hlt : nextSlide s.mediaItems.length s.currentIndex < (s.mediaItems.length : Int) :=
    nextSlide_lt _ _ hN
  have hidx : (advanceStep s).currentIndex = nextSlide s.mediaItems.length s.currentIndex := by
    show (sliderEffect (nextSlideState s)).currentIndex = _
    rw [sliderEffect_currentIndex (nextSlideState s) hne]
    simp only [nextSlideState]
    rw [if_neg (not_le.mpr hlt)]
  rw [hidx, nextSlide_eq_mod _ _ h0 h1]

/-- C5 witness: advancing from the last index of a three-item playlist wraps
to (2 + 1) mod 3 = 0. -/
theorem advance_wraps_witness :
    (advanceStep sampleState).currentIndex =
      (sampleState.currentIndex + 1) % (sampleState.mediaItems.length : Int) :=
  advance_wraps sampleState (by decide) (by decide) (by decide)

/-- C6: when the listing (or per-item URL resolution) fails, the
`catch` only logs: the held playlist, the index, the operator-facing
notification and all other session state are unchanged, and the pass
returns normally instead of propagating an error. -/
theorem fetch_failure_retains (s : KioskState) :
    (fetchContentStep s .failure).mediaItems = s.mediaItems ∧
    (fetchContentStep s .failure).currentIndex = s.currentIndex ∧
    (fetchContentStep s .failure).notification = s.notification ∧
    (fetchContentStep s .failure).isMuted = s.isMuted ∧
    (fetchContentStep s .failure).isFullscreen = s.isFullscreen ∧
    (fetchContentStep s .failure).isUiVisible = s.isUiVisible ∧
    (fetchContentStep s .failure).videoRefs = s.videoRefs :=
  ⟨rfl, rfl, rfl, rfl, rfl, rfl, rfl⟩

/-- C7 counterexample: with `kioskId` resolved to "common", the auto-refresh
effect registers exactly one interval — whose tick runs both the content
refresh and the version check — not two independent timers. -/
theorem pollTimers_counterexample :
    autoRefreshTimers (some "common") =
      [{ period := 120000, actions := [PollAction.contentRefresh, PollAction.versionCheck] }] ∧
    (autoRefreshTimers (some "common")).length ≠ 2 :=
  ⟨rfl, by decide⟩

/-- C7 (amended): once `kioskId` is known the effect registers a single
repeating timer with a fixed two-minute period whose tick runs the
content-refresh pass and then the version check; no timer is registered
before `kioskId` is known, and the effect's cleanup leaves no registration
behind. -/
theorem pollTimers_amended (kid : String) :
    autoRefreshTimers (some kid) =
      [{ period := 120000, actions := [PollAction.contentRefresh, PollAction.versionCheck] }] ∧
    autoRefreshTimers none = [] ∧
    autoRefreshTeardown = [] :=
  ⟨rfl, rfl, rfl⟩

/-- C8: the mute flag starts true; reconciliation, playback advance,
fullscreen change, upload and delete all leave it unchanged; and toggling
sound from the muted start state sets both the session flag and the
currently showing video element's mute flag to false. -/
theorem muted_frame_and_toggle :
    initialState.isMuted = true ∧
    (∀ (s : KioskState) (o : ListingOutcome), (fetchContentStep s o).isMuted = s.isMuted) ∧
    (∀ s : KioskState, (advanceStep s).isMuted = s.isMuted) ∧
    (∀ (s : KioskState) (fs : Bool), (handleFsChange s fs).isMuted = s.isMuted) ∧
    (∀ (s : KioskState) (o : MutationOutcome), (handleUpload s o).isMuted = s.isMuted) ∧
    (∀ (s : KioskState) (c : Bool) (o : MutationOutcome),
      (handleDelete s c o).isMuted = s.isMuted) ∧
    (∀ (s : KioskState) (v : VideoEl), s.isMuted = true →
      refAt s.videoRefs s.currentIndex = some v →
      (toggleSound s).isMuted = false ∧
      ∃ v', refAt (toggleSound s).videoRefs s.currentIndex = some v' ∧ v'.muted = false) := by
  refine ⟨rfl, fetchContentStep_isMuted, ?_, fun s fs => rfl, ?_, ?_, ?_⟩
  · intro s
    exact (sliderEffect_isMuted _).trans rfl
  · intro s o
    cases o with
    | failure => rfl
    | success lo => exact (fetchContentStep_isMuted _ lo).trans rfl
  · intro s c o
    cases c with
    | false => rfl
    | true =>
      cases o with
      | failure => rfl
      | success lo => exact (fetchContentStep_isMuted _ lo).trans rfl
  · intro s v hm hr
    rcases refAt_bounds _ _ _ hr with ⟨hneg, hlt⟩
    simp only [toggleSound, hr]
    refine ⟨by simp [hm], ⟨{ v with muted := !s.isMuted }, ?_, by simp [hm]⟩⟩
    exact refAt_set _ _ _ hneg hlt

end Kiosk
